import Mathlib

/-!
Verification of the `EventStorage` abstraction of `src/src/sentry/eventstore/base.py`.

The column catalog (`Columns`, `minimal_columns`, `full_columns`) and the batch
hydration operation `bind_nodes` are embedded directly from the source.  The
stateful parts are rendered functionally: the blob store content is a function
from node id to an optional blob, the in-place mutation performed by
`bind_nodes` is rendered by returning the updated object list, and every
`nodestore.get_multi` call is recorded (with its key list) in the second
component of the result, so that call-count properties can be stated.

The point-lookup, range-query and next/prev operations are declared abstract in
the source (their bodies raise `NotImplementedError`); where a claim concerns
their behaviour they are modelled from the specification, as noted on each
definition.
-/

namespace EventstoreSpec

/-- Column catalog from `Columns(Enum)` of src/src/sentry/eventstore/base.py. -/
inductive Columns : Type where
  | event_id
  | group_id
  | project_id
  | timestamp
  | culprit
  | location
  | message
  | platform
  | title
  | type
  | tags_key
  | tags_value
  | email
  | ip_address
  | user_id
  | username
deriving DecidableEq

/-- Backend column name of each catalog entry (the enum member values). -/
def Columns.value : Columns → String
  | .event_id => "event_id"
  | .group_id => "group_id"
  | .project_id => "project_id"
  | .timestamp => "timestamp"
  | .culprit => "culprit"
  | .location => "location"
  | .message => "message"
  | .platform => "platform"
  | .title => "title"
  | .type => "type"
  | .tags_key => "tags.key"
  | .tags_value => "tags.value"
  | .email => "email"
  | .ip_address => "ip_address"
  | .user_id => "user_id"
  | .username => "username"

namespace EventStorage

/-- The minimal list of columns needed to bootstrap an event
(`EventStorage.minimal_columns`). -/
def minimal_columns : List Columns :=
  [Columns.event_id, Columns.group_id, Columns.project_id, Columns.timestamp]

/-- All useful columns obtainable from the query backend
(`EventStorage.full_columns`). -/
def full_columns : List Columns :=
  minimal_columns ++ [
    Columns.culprit,
    Columns.location,
    Columns.message,
    Columns.platform,
    Columns.title,
    Columns.type,
    Columns.tags_key,
    Columns.tags_value,
    Columns.email,
    Columns.ip_address,
    Columns.user_id,
    Columns.username]

end EventStorage

/-- Event body blob: the dict held in the node store, modelled as an
association list. -/
abbrev Blob := List (String × String)

/-- NodeData: the lazily hydrated reference from an event to its body blob.
`id` is the node id (`none` models a missing, falsy id) and `data` the bound
body, absent until `bind_data` runs. -/
structure NodeData where
  id : Option String
  data : Option Blob
deriving DecidableEq

/-- The `bind_data` method of a node: binds a fetched body to it. -/
def NodeData.bind_data (n : NodeData) (d : Blob) : NodeData :=
  { n with data := some d }

/-- An object handed to `bind_nodes`: the attribute named by the `node_name`
parameter, holding the object's NodeData, is modelled as the field `node`. -/
structure EventObj where
  node : NodeData
deriving DecidableEq

/-- The consumed `nodestore.get_multi` capability: one batched lookup that
returns, for each requested id, the stored blob or nothing; ids that were not
requested are absent from the response.  `store` is the blob store content. -/
def get_multi (store : String → Option Blob) (ids : List String) : String → Option Blob :=
  fun k => if k ∈ ids then store k else none

/-- `bind_nodes` of src/src/sentry/eventstore/base.py.  It filters the objects
whose node carries a (truthy) id, collects those ids, returns early when there
are none, and otherwise issues one `get_multi` and binds each fetched body (or
the empty dict, via `or \x7b\x7d`) to the corresponding node.  The in-place
mutation of the aliased nodes is rendered by mapping over the input list; the
second component lists every `get_multi` call made, each with its key list. -/
def bind_nodes (store : String → Option Blob) (object_list : List EventObj) :
    List EventObj × List (List String) :=
  let object_node_list := object_list.filter (fun i => i.node.id.isSome)
  let node_ids := object_node_list.map (fun i => i.node.id.getD "")
  if node_ids = [] then (object_list, [])
  else
    let node_results := get_multi store node_ids
    (object_list.map (fun i =>
      if i.node.id.isSome then
        { i with node := i.node.bind_data ((node_results (i.node.id.getD "")).getD []) }
      else i),
    [node_ids])

/-- The key list `bind_nodes` collects: one id per input object whose node
carries one, in input order. -/
def hydration_ids (l : List EventObj) : List String :=
  (l.filter (fun i => i.node.id.isSome)).map (fun i => i.node.id.getD "")

/-- Per-object effect of `bind_nodes` on the input list `l`. -/
def hydrate (store : String → Option Blob) (l : List EventObj) (e : EventObj) : EventObj :=
  if e.node.id.isSome then
    { e with node := e.node.bind_data (((get_multi store (hydration_ids l)) (e.node.id.getD "")).getD []) }
  else e

theorem hydration_ids_eq_nil_iff (l : List EventObj) :
    hydration_ids l = [] ↔ ∀ e ∈ l, ¬ e.node.id.isSome := by
  simp [hydration_ids, List.map_eq_nil_iff, List.filter_eq_nil_iff]

theorem bind_nodes_snd (store : String → Option Blob) (l : List EventObj) :
    (bind_nodes store l).2 = if hydration_ids l = [] then [] else [hydration_ids l] := by
  simp only [bind_nodes, hydration_ids]
  split
  · rfl
  · rfl

theorem bind_nodes_fst_getElem (store : String → Option Blob) (l : List EventObj)
    (i : Nat) (e : EventObj) (h : l[i]? = some e) :
    (bind_nodes store l).1[i]? = some (hydrate store l e) := by
  simp only [bind_nodes]
  split
  · rename_i hnil
    have hno : ∀ x ∈ l, ¬ x.node.id.isSome := by
      rw [← hydration_ids_eq_nil_iff]
      simpa [hydration_ids] using hnil
    have hide : hydrate store l e = e := by
      have : ¬ e.node.id.isSome = true := hno e (List.getElem?_mem h)
      simp [hydrate, this]
    rw [hide]
    exact h
  · simp only [List.getElem?_map, h, Option.map_some]
    rfl

theorem hydrate_eq_of_id_some (store : String → Option Blob) (l : List EventObj)
    (e : EventObj) (k : String) (hk : e.node.id = some k) :
    hydrate store l e = ⟨⟨some k, some ((get_multi store (hydration_ids l) k).getD [])⟩⟩ := by
  cases e with
  | mk n =>
    cases n with
    | mk id d =>
      cases hk
      rfl

/-- Claim C7: `minimal_columns` is exactly the four-column sequence event id,
group id, project id, timestamp; `full_columns` extends it with culprit,
location, message, platform, title, type, tag key/value and the user-identity
fields; and every minimal column is a full column. -/
theorem minimal_full_columns_spec :
    EventStorage.minimal_columns =
      [Columns.event_id, Columns.group_id, Columns.project_id, Columns.timestamp] ∧
    EventStorage.full_columns = EventStorage.minimal_columns ++ [
      Columns.culprit, Columns.location, Columns.message, Columns.platform,
      Columns.title, Columns.type, Columns.tags_key, Columns.tags_value,
      Columns.email, Columns.ip_address, Columns.user_id, Columns.username] ∧
    ∀ c ∈ EventStorage.minimal_columns, c ∈ EventStorage.full_columns := by
  refine ⟨rfl, rfl, ?_⟩
  decide

/-- Claim C1 counterexample: on the empty event list, `bind_nodes` performs
zero `get_multi` calls, not one. -/
theorem bind_nodes_empty_zero_calls :
    ((bind_nodes (fun _ => none) ([] : List EventObj)).2).length = 0 ∧
    ¬ ((bind_nodes (fun _ => none) ([] : List EventObj)).2).length = 1 := by
  decide

/-- Claim C1 (amended): an invocation of `bind_nodes` performs at most one
`get_multi` call, and exactly one precisely when some input event carries a
node id. -/
theorem bind_nodes_at_most_one_call (store : String → Option Blob) (l : List EventObj) :
    ((bind_nodes store l).2).length ≤ 1 ∧
    (((bind_nodes store l).2).length = 1 ↔ ∃ e ∈ l, e.node.id.isSome) := by
  rw [bind_nodes_snd]
  constructor
  · split
    · simp
    · simp
  · split
    · rename_i hnil
      rw [hydration_ids_eq_nil_iff] at hnil
      simp only [List.length_nil]
      constructor
      · intro h
        exact absurd h (by simp)
      · rintro ⟨e, he, hsome⟩
        exact absurd hsome (hnil e he)
    · rename_i hnil
      rw [hydration_ids_eq_nil_iff] at hnil
      push_neg at hnil
      obtain ⟨e, he, hsome⟩ := hnil
      simp only [List.length_cons, List.length_nil, true_iff]
      exact ⟨e, he, by simpa using hsome⟩

/-- Claim C2 counterexample: two events sharing node id "a" put "a" twice into
the key list of the single `get_multi` call — distinct ids are not
deduplicated. -/
theorem bind_nodes_duplicate_keys :
    (bind_nodes (fun _ => none)
      [⟨⟨some "a", none⟩⟩, ⟨⟨some "a", none⟩⟩]).2 = [["a", "a"]] ∧
    ¬ (["a", "a"] : List String).count "a" = 1 := by
  decide

/-- Claim C2 (amended): `bind_nodes` hands its single `get_multi` a key list
containing each node id once per input event that carries it — an id shared by
several events appears several times. -/
theorem bind_nodes_key_list_counts (store : String → Option Blob) (l : List EventObj)
    (k : String) (h : ∃ e ∈ l, e.node.id.isSome) :
    ((bind_nodes store l).2).length = 1 ∧
    ((bind_nodes store l).2.headD []).count k
      = l.countP (fun e => e.node.id == some k) := by
  have hnil : ¬ hydration_ids l = [] := by
    rw [hydration_ids_eq_nil_iff]
    push_neg
    obtain ⟨e, he, hsome⟩ := h
    exact ⟨e, he, by simpa using hsome⟩
  rw [bind_nodes_snd, if_neg hnil]
  refine ⟨rfl, ?_⟩
  simp only [List.headD_cons, hydration_ids]
  rw [List.count_eq_countP, List.countP_map, List.countP_filter]
  refine List.countP_congr ?_
  intro e _
  cases hid : e.node.id with
  | none => simp [Function.comp, hid]
  | some v => simp [Function.comp, hid]

/-- Witness for the amended claim C2 at a concrete one-event input. -/
theorem bind_nodes_key_list_counts_witness :
    ((bind_nodes (fun _ => none) [⟨⟨some "b", none⟩⟩]).2).length = 1 ∧
    ((bind_nodes (fun _ => none) [⟨⟨some "b", none⟩⟩]).2.headD []).count "b"
      = ([⟨⟨some "b", none⟩⟩] : List EventObj).countP (fun e => e.node.id == some "b") :=
  bind_nodes_key_list_counts (fun _ => none) [⟨⟨some "b", none⟩⟩] "b"
    ⟨⟨⟨some "b", none⟩⟩, by decide⟩

/-- Claim C3: an event whose node id the store does not hold gets the empty
body bound to its node, and the call completes without failure. -/
theorem bind_nodes_missing_blob_empty_body (store : String → Option Blob)
    (l : List EventObj) (i : Nat) (e : EventObj) (k : String)
    (he : l[i]? = some e) (hk : e.node.id = some k) (hmiss : store k = none) :
    (bind_nodes store l).1[i]? = some ⟨⟨some k, some []⟩⟩ := by
  rw [bind_nodes_fst_getElem store l i e he, hydrate_eq_of_id_some store l e k hk]
  have hval : (get_multi store (hydration_ids l) k).getD [] = [] := by
    unfold get_multi
    split
    · rw [hmiss]
      rfl
    · rfl
  rw [hval]

/-- Witness for claim C3 at a concrete input with an empty store. -/
theorem bind_nodes_missing_blob_empty_body_witness :
    (bind_nodes (fun _ => none) [⟨⟨some "k", none⟩⟩]).1[0]? = some ⟨⟨some "k", some []⟩⟩ :=
  bind_nodes_missing_blob_empty_body (fun _ => none) [⟨⟨some "k", none⟩⟩] 0
    ⟨⟨some "k", none⟩⟩ "k" rfl rfl rfl

theorem filter_eraseIdx_of_not {α : Type} (p : α → Bool) (l : List α) (i : Nat) (e : α)
    (he : l[i]? = some e) (hp : p e = false) :
    (l.eraseIdx i).filter p = l.filter p := by
  induction l generalizing i with
  | nil => simp at he
  | cons x xs ih =>
    cases i with
    | zero =>
      simp only [List.getElem?_cons_zero, Option.some.injEq] at he
      subst he
      simp [List.eraseIdx, List.filter_cons, hp]
    | succ n =>
      simp only [List.getElem?_cons_succ] at he
      simp only [List.eraseIdx_cons_succ, List.filter_cons]
      rw [ih n he]

/-- Claim C8: an input event whose node carries no id is returned unchanged,
and removing it from the input does not change the multi-get calls made — it
contributes nothing to the lookup. -/
theorem bind_nodes_skips_idless (store : String → Option Blob) (l : List EventObj)
    (i : Nat) (e : EventObj) (he : l[i]? = some e) (hid : e.node.id = none) :
    (bind_nodes store l).1[i]? = some e ∧
    (bind_nodes store l).2 = (bind_nodes store (l.eraseIdx i)).2 := by
  constructor
  · rw [bind_nodes_fst_getElem store l i e he]
    have : ¬ e.node.id.isSome = true := by
      rw [hid]
      simp
    simp [hydrate, this]
  · rw [bind_nodes_snd, bind_nodes_snd]
    have hfe : hydration_ids (l.eraseIdx i) = hydration_ids l := by
      unfold hydration_ids
      rw [filter_eraseIdx_of_not (fun x => x.node.id.isSome) l i e he (by simp [hid])]
    rw [hfe]

/-- Witness for claim C8 at a concrete two-event input. -/
theorem bind_nodes_skips_idless_witness :
    (bind_nodes (fun _ => none) [⟨⟨none, none⟩⟩, ⟨⟨some "c", none⟩⟩]).1[0]?
      = some ⟨⟨none, none⟩⟩ ∧
    (bind_nodes (fun _ => none) [⟨⟨none, none⟩⟩, ⟨⟨some "c", none⟩⟩]).2
      = (bind_nodes (fun _ => none) ([⟨⟨none, none⟩⟩, ⟨⟨some "c", none⟩⟩].eraseIdx 0)).2 :=
  bind_nodes_skips_idless (fun _ => none) [⟨⟨none, none⟩⟩, ⟨⟨some "c", none⟩⟩] 0
    ⟨⟨none, none⟩⟩ rfl rfl

/-- Claim C9: two input events whose nodes carry the same node id come out of
`bind_nodes` with identical hydrated bodies. -/
theorem bind_nodes_shared_id_same_body (store : String → Option Blob)
    (l : List EventObj) (i j : Nat) (a b : EventObj) (k : String)
    (hi : l[i]? = some a) (hj : l[j]? = some b)
    (hik : a.node.id = some k) (hjk : b.node.id = some k) :
    ∃ d : Blob, (bind_nodes store l).1[i]? = some ⟨⟨some k, some d⟩⟩ ∧
      (bind_nodes store l).1[j]? = some ⟨⟨some k, some d⟩⟩ := by
  refine ⟨(get_multi store (hydration_ids l) k).getD [], ?_, ?_⟩
  · rw [bind_nodes_fst_getElem store l i a hi, hydrate_eq_of_id_some store l a k hik]
  · rw [bind_nodes_fst_getElem store l j b hj, hydrate_eq_of_id_some store l b k hjk]

/-- Witness for claim C9: two events sharing node id "d" against a store
holding a blob for it. -/
theorem bind_nodes_shared_id_same_body_witness :
    ∃ d : Blob,
      (bind_nodes (fun k => if k = "d" then some [("x", "1")] else none)
        [⟨⟨some "d", none⟩⟩, ⟨⟨some "d", some [("old", "0")]⟩⟩]).1[0]?
        = some ⟨⟨some "d", some d⟩⟩ ∧
      (bind_nodes (fun k => if k = "d" then some [("x", "1")] else none)
        [⟨⟨some "d", none⟩⟩, ⟨⟨some "d", some [("old", "0")]⟩⟩]).1[1]?
        = some ⟨⟨some "d", some d⟩⟩ :=
  bind_nodes_shared_id_same_body (fun k => if k = "d" then some [("x", "1")] else none)
    [⟨⟨some "d", none⟩⟩, ⟨⟨some "d", some [("old", "0")]⟩⟩] 0 1
    ⟨⟨some "d", none⟩⟩ ⟨⟨some "d", some [("old", "0")]⟩⟩ "d" rfl rfl rfl rfl

/-- Claim C10: when no input event carries a node id (in particular on the
empty list), `bind_nodes` issues no store call and returns the list
unchanged. -/
theorem bind_nodes_no_ids_noop (store : String → Option Blob) (l : List EventObj)
    (h : ∀ e ∈ l, e.node.id = none) :
    bind_nodes store l = (l, []) := by
  have hfil : l.filter (fun i => i.node.id.isSome) = [] := by
    rw [List.filter_eq_nil_iff]
    intro a ha
    simp [h a ha]
  simp [bind_nodes, hfil]

/-- Witness for claim C10 at a concrete one-event input without a node id. -/
theorem bind_nodes_no_ids_noop_witness :
    bind_nodes (fun _ => none) [⟨⟨none, some [("w", "2")]⟩⟩]
      = ([⟨⟨none, some [("w", "2")]⟩⟩], []) :=
  bind_nodes_no_ids_noop (fun _ => none) [⟨⟨none, some [("w", "2")]⟩⟩] (by decide)

/-- An event row of the backing store: the queryable identity fields of an
Event.  Times are modelled as natural numbers (epoch = 0), event ids as the
opaque strings they are, and the nullable group id as an optional number. -/
structure EventRow where
  project_id : Nat
  event_id : String
  group_id : Option Nat
  timestamp : Nat
deriving DecidableEq

/-- Error taxonomy of the event query service, from the spec. -/
inductive StoreErr where
  | NotFound
  | BackendUnavailable
  | InvalidColumnSet
deriving DecidableEq

/-- Modelled from the spec: `get_event_by_id` is abstract in
src/src/sentry/eventstore/base.py (its body raises NotImplementedError).  The
specified behaviour — a point lookup on the unique key (project_id, event_id)
that fails with NotFound when no row matches — is modelled over the backend
row store. -/
def get_event_by_id (rows : List EventRow) (project_id : Nat) (event_id : String) :
    Except StoreErr EventRow :=
  match rows.find? (fun e => e.project_id == project_id && e.event_id == event_id) with
  | some e => Except.ok e
  | none => Except.error StoreErr.NotFound

/-- Claim C6: on a (project_id, event_id) pair with no matching row,
`get_event_by_id` fails with NotFound and never yields an event. -/
theorem get_event_by_id_not_found (rows : List EventRow) (p : Nat) (eid : String)
    (h : ∀ e ∈ rows, ¬ (e.project_id = p ∧ e.event_id = eid)) :
    get_event_by_id rows p eid = Except.error StoreErr.NotFound ∧
    ∀ e : EventRow, ¬ get_event_by_id rows p eid = Except.ok e := by
  have hfind : rows.find? (fun e => e.project_id == p && e.event_id == eid) = none := by
    rw [List.find?_eq_none]
    intro e he
    have := h e he
    simp only [Bool.and_eq_true, beq_iff_eq]
    intro hc
    exact this hc
  refine ⟨?_, ?_⟩
  · unfold get_event_by_id
    rw [hfind]
  · intro e hc
    unfold get_event_by_id at hc
    rw [hfind] at hc
    exact absurd hc (by simp)

/-- Witness for claim C6 at a concrete store missing the requested pair. -/
theorem get_event_by_id_not_found_witness :
    get_event_by_id [⟨1, "x", none, 5⟩] 2 "y" = Except.error StoreErr.NotFound ∧
    ∀ e : EventRow, ¬ get_event_by_id [⟨1, "x", none, 5⟩] 2 "y" = Except.ok e :=
  get_event_by_id_not_found [⟨1, "x", none, 5⟩] 2 "y" (by decide)

/-- Arguments of `get_events`.  `end` is a Lean keyword and appears as `stop`;
conditions and filter keys are opaque here and only their defaulting (to
nothing) matters. -/
structure EventsQuery where
  start : Nat
  stop : Nat
  cols : List Columns
  conditions : Option (List String)
  filter_keys : Option (List String)
  orderby : List String
  limit : Nat
  offset : Nat
deriving DecidableEq

/-- Modelled from the spec: the argument defaults documented for `get_events`
in src/src/sentry/eventstore/base.py (the method itself is abstract there).
`now` is the current time, passed in; the epoch is 0; a leading "-" on an
orderby field denotes descending order. -/
def get_events_default_args (now : Nat) : EventsQuery :=
  { start := 0
    stop := now
    cols := EventStorage.minimal_columns
    conditions := none
    filter_keys := none
    orderby := ["-time", "-event_id"]
    limit := 100
    offset := 0 }

/-- Claim C5: absent explicit arguments, `get_events` runs from the epoch to
now, over the minimal columns, ordered by descending time then descending
event id, with limit 100 and offset 0. -/
theorem get_events_defaults_spec (now : Nat) :
    (get_events_default_args now).start = 0 ∧
    (get_events_default_args now).stop = now ∧
    (get_events_default_args now).cols = EventStorage.minimal_columns ∧
    (get_events_default_args now).orderby = ["-time", "-event_id"] ∧
    (get_events_default_args now).limit = 100 ∧
    (get_events_default_args now).offset = 0 :=
  ⟨rfl, rfl, rfl, rfl, rfl, rfl⟩

/-- Modelled from the spec: the sort key of the default ordering — time, with
the event id as deterministic tie-break. -/
def eventKey (e : EventRow) : Nat × String :=
  (e.timestamp, e.event_id)

/-- Modelled from the spec: `keyLt a b` holds when b follows a under the
default ordering, i.e. b has a later time, or the same time and a larger event
id.  Event ids are compared lexicographically through their character lists so
that the comparison is computable by reduction. -/
def keyLt (a b : EventRow) : Prop :=
  a.timestamp < b.timestamp ∨
    (a.timestamp = b.timestamp ∧ a.event_id.data < b.event_id.data)

instance : DecidableRel keyLt := fun a b =>
  inferInstanceAs (Decidable (a.timestamp < b.timestamp ∨
    (a.timestamp = b.timestamp ∧ a.event_id.data < b.event_id.data)))

theorem keyLt_irrefl (a : EventRow) : ¬ keyLt a a := by
  rintro (h | ⟨h1, h2⟩)
  · exact lt_irrefl _ h
  · exact lt_irrefl _ h2

theorem keyLt_trans (a b c : EventRow) (hab : keyLt a b) (hbc : keyLt b c) :
    keyLt a c := by
  rcases hab with h1 | ⟨h1, h2⟩ <;> rcases hbc with h3 | ⟨h3, h4⟩
  · exact Or.inl (lt_trans h1 h3)
  · exact Or.inl (h3 ▸ h1)
  · exact Or.inl (h1 ▸ h3)
  · exact Or.inr ⟨h1.trans h3, lt_trans h2 h4⟩

theorem keyLt_of_key_ne (a b : EventRow) (h : eventKey a ≠ eventKey b) :
    keyLt a b ∨ keyLt b a := by
  rcases Nat.lt_trichotomy a.timestamp b.timestamp with ht | ht | ht
  · exact Or.inl (Or.inl ht)
  · have hid : a.event_id ≠ b.event_id := by
      intro hc
      exact h (Prod.ext ht hc)
    have hid2 : a.event_id < b.event_id ∨ b.event_id < a.event_id :=
      lt_or_gt_of_ne hid
    rw [String.lt_iff_toList_lt, String.lt_iff_toList_lt] at hid2
    rcases hid2 with hi | hi
    · exact Or.inl (Or.inr ⟨ht, hi⟩)
    · exact Or.inr (Or.inr ⟨ht.symm, hi⟩)
  · exact Or.inr (Or.inl ht)

/-- First element minimal under `lt` of a list, scanning left to right. -/
def minBy {α : Type} (lt : α → α → Prop) [DecidableRel lt] : List α → Option α
  | [] => none
  | x :: xs =>
    match minBy lt xs with
    | none => some x
    | some b => if lt x b then some x else some b

/-- First element maximal under `lt` of a list, scanning left to right. -/
def maxBy {α : Type} (lt : α → α → Prop) [DecidableRel lt] : List α → Option α
  | [] => none
  | x :: xs =>
    match maxBy lt xs with
    | none => some x
    | some b => if lt b x then some x else some b

theorem minBy_eq_none {α : Type} (lt : α → α → Prop) [DecidableRel lt]
    (l : List α) : minBy lt l = none ↔ l = [] := by
  cases l with
  | nil => simp [minBy]
  | cons x xs =>
    simp only [minBy]
    constructor
    · intro h
      cases hm : minBy lt xs <;> rw [hm] at h
      · exact absurd h (by simp)
      · rename_i b
        by_cases hlt : lt x b <;> simp [hlt] at h
    · intro h
      exact absurd h (by simp)

theorem maxBy_eq_none {α : Type} (lt : α → α → Prop) [DecidableRel lt]
    (l : List α) : maxBy lt l = none ↔ l = [] := by
  cases l with
  | nil => simp [maxBy]
  | cons x xs =>
    simp only [maxBy]
    constructor
    · intro h
      cases hm : maxBy lt xs <;> rw [hm] at h
      · exact absurd h (by simp)
      · rename_i b
        by_cases hlt : lt b x <;> simp [hlt] at h
    · intro h
      exact absurd h (by simp)

theorem minBy_mem {α : Type} (lt : α → α → Prop) [DecidableRel lt]
    (l : List α) (m : α) (h : minBy lt l = some m) : m ∈ l := by
  induction l with
  | nil => exact absurd h (by simp [minBy])
  | cons x xs ih =>
    simp only [minBy] at h
    cases hm : minBy lt xs <;> rw [hm] at h
    · rw [Option.some.injEq] at h
      exact h ▸ List.mem_cons_self x xs
    · rename_i b
      by_cases hlt : lt x b <;> simp only [hlt, if_true, if_false, reduceIte] at h <;>
        rw [Option.some.injEq] at h
      · exact h ▸ List.mem_cons_self x xs
      · exact List.mem_cons_of_mem x (ih (h ▸ hm))

theorem maxBy_mem {α : Type} (lt : α → α → Prop) [DecidableRel lt]
    (l : List α) (m : α) (h : maxBy lt l = some m) : m ∈ l := by
  induction l with
  | nil => exact absurd h (by simp [maxBy])
  | cons x xs ih =>
    simp only [maxBy] at h
    cases hm : maxBy lt xs <;> rw [hm] at h
    · rw [Option.some.injEq] at h
      exact h ▸ List.mem_cons_self x xs
    · rename_i b
      by_cases hlt : lt b x <;> simp only [hlt, if_true, if_false, reduceIte] at h <;>
        rw [Option.some.injEq] at h
      · exact h ▸ List.mem_cons_self x xs
      · exact List.mem_cons_of_mem x (ih (h ▸ hm))

theorem minBy_min {α : Type} (lt : α → α → Prop) [DecidableRel lt]
    (hirr : ∀ a, ¬ lt a a) (htr : ∀ a b c, lt a b → lt b c → lt a c)
    (l : List α) (m : α) (h : minBy lt l = some m) : ∀ a ∈ l, ¬ lt a m := by
  induction l generalizing m with
  | nil => exact absurd h (by simp [minBy])
  | cons x xs ih =>
    simp only [minBy] at h
    intro a ha
    rcases List.mem_cons.1 ha with rfl | haxs
    · cases hm : minBy lt xs <;> rw [hm] at h
      · rw [Option.some.injEq] at h
        exact h ▸ hirr a
      · rename_i b
        by_cases hlt : lt a b <;> simp only [hlt, reduceIte] at h <;>
          rw [Option.some.injEq] at h
        · exact h ▸ hirr a
        · exact h ▸ hlt
    · cases hm : minBy lt xs <;> rw [hm] at h
      · rw [minBy_eq_none] at hm
        exact absurd haxs (hm ▸ List.not_mem_nil a)
      · rename_i b
        have hb : ¬ lt a b := ih b hm a haxs
        by_cases hlt : lt x b <;> simp only [hlt, reduceIte] at h <;>
          rw [Option.some.injEq] at h
        · subst h
          intro hax
          exact hb (htr a x b hax hlt)
        · exact h ▸ hb

theorem maxBy_max {α : Type} (lt : α → α → Prop) [DecidableRel lt]
    (hirr : ∀ a, ¬ lt a a) (htr : ∀ a b c, lt a b → lt b c → lt a c)
    (l : List α) (m : α) (h : maxBy lt l = some m) : ∀ a ∈ l, ¬ lt m a := by
  induction l generalizing m with
  | nil => exact absurd h (by simp [maxBy])
  | cons x xs ih =>
    simp only [maxBy] at h
    intro a ha
    rcases List.mem_cons.1 ha with rfl | haxs
    · cases hm : maxBy lt xs <;> rw [hm] at h
      · rw [Option.some.injEq] at h
        exact h ▸ hirr a
      · rename_i b
        by_cases hlt : lt b a <;> simp only [hlt, reduceIte] at h <;>
          rw [Option.some.injEq] at h
        · exact h ▸ hirr a
        · exact h ▸ hlt
    · cases hm : maxBy lt xs <;> rw [hm] at h
      · rw [maxBy_eq_none] at hm
        exact absurd haxs (hm ▸ List.not_mem_nil a)
      · rename_i b
        have hb : ¬ lt b a := ih b hm a haxs
        by_cases hlt : lt b x <;> simp only [hlt, reduceIte] at h <;>
          rw [Option.some.injEq] at h
        · subst h
          intro hma
          exact hb (htr b x a hlt hma)
        · exact h ▸ hb

/-- Modelled from the spec: `get_next_event_id` is abstract in
src/src/sentry/eventstore/base.py; under the default ordering and a fixed
filter it resolves the matching event immediately after the reference event.
This resolves the event itself; `get_next_event_id` projects its identity. -/
def get_next_event (rows : List EventRow) (cond : EventRow → Bool) (e : EventRow) :
    Option EventRow :=
  minBy keyLt ((rows.filter cond).filter (fun x => decide (keyLt e x)))

/-- Identity pair returned by the next-event lookup. -/
def get_next_event_id (rows : List EventRow) (cond : EventRow → Bool) (e : EventRow) :
    Option (Nat × String) :=
  (get_next_event rows cond e).map (fun n => (n.project_id, n.event_id))

/-- Modelled from the spec: `get_prev_event_id` is abstract in
src/src/sentry/eventstore/base.py; symmetric to the next-event lookup, it
resolves the matching event immediately before the reference event. -/
def get_prev_event (rows : List EventRow) (cond : EventRow → Bool) (e : EventRow) :
    Option EventRow :=
  maxBy keyLt ((rows.filter cond).filter (fun x => decide (keyLt x e)))

/-- Identity pair returned by the previous-event lookup. -/
def get_prev_event_id (rows : List EventRow) (cond : EventRow → Bool) (e : EventRow) :
    Option (Nat × String) :=
  (get_prev_event rows cond e).map (fun n => (n.project_id, n.event_id))

/-- Claim C4: for a matching event that is neither the first nor the last row
of the view, the next-event lookup followed by the previous-event lookup on
its result returns the reference event's own (project_id, event_id). -/
theorem next_prev_roundtrip (rows : List EventRow) (cond : EventRow → Bool)
    (e n : EventRow)
    (hinj : ∀ a ∈ rows.filter cond, ∀ b ∈ rows.filter cond,
      eventKey a = eventKey b → a = b)
    (he : e ∈ rows.filter cond)
    (hfirst : ¬ get_prev_event rows cond e = none)
    (hnext : get_next_event rows cond e = some n) :
    get_next_event_id rows cond e = some (n.project_id, n.event_id) ∧
    get_prev_event_id rows cond n = some (e.project_id, e.event_id) := by
  refine ⟨by simp [get_next_event_id, hnext], ?_⟩
  have hnmem := minBy_mem keyLt _ n hnext
  rw [List.mem_filter] at hnmem
  obtain ⟨hnM, hen⟩ := hnmem
  rw [decide_eq_true_iff] at hen
  have hmin := minBy_min keyLt keyLt_irrefl keyLt_trans _ n hnext
  have heF : e ∈ (rows.filter cond).filter (fun x => decide (keyLt x n)) :=
    List.mem_filter.2 ⟨he, decide_eq_true hen⟩
  rw [get_prev_event_id, get_prev_event]
  cases hM : maxBy keyLt ((rows.filter cond).filter (fun x => decide (keyLt x n))) with
  | none =>
    rw [maxBy_eq_none] at hM
    exact absurd (hM ▸ heF) (List.not_mem_nil e)
  | some m =>
    have hmmem := maxBy_mem keyLt _ m hM
    rw [List.mem_filter] at hmmem
    obtain ⟨hmM, hmn⟩ := hmmem
    rw [decide_eq_true_iff] at hmn
    have hmax := maxBy_max keyLt keyLt_irrefl keyLt_trans _ m hM
    have hne : ¬ keyLt m e := hmax e heF
    have hme : m = e := by
      by_contra hc
      have hkey : eventKey m ≠ eventKey e := fun hk => hc (hinj m hmM e he hk)
      rcases keyLt_of_key_ne m e hkey with hlt | hlt
      · exact hne hlt
      · have hmF : m ∈ (rows.filter cond).filter (fun x => decide (keyLt e x)) :=
          List.mem_filter.2 ⟨hmM, decide_eq_true hlt⟩
        exact hmin m hmF hmn
    rw [hme]
    rfl

/-- Witness for claim C4 on the three-event store of the specification example:
project 42 with events e1 (t = 100), e2 (t = 200), e3 (t = 300); next of e2 is
e3 and the previous event of e3 is e2 again. -/
theorem next_prev_roundtrip_witness :
    get_next_event_id
      [⟨42, "e1", none, 100⟩, ⟨42, "e2", none, 200⟩, ⟨42, "e3", none, 300⟩]
      (fun _ => true) ⟨42, "e2", none, 200⟩ = some (42, "e3") ∧
    get_prev_event_id
      [⟨42, "e1", none, 100⟩, ⟨42, "e2", none, 200⟩, ⟨42, "e3", none, 300⟩]
      (fun _ => true) ⟨42, "e3", none, 300⟩ = some (42, "e2") :=
  next_prev_roundtrip
    [⟨42, "e1", none, 100⟩, ⟨42, "e2", none, 200⟩, ⟨42, "e3", none, 300⟩]
    (fun _ => true) ⟨42, "e2", none, 200⟩ ⟨42, "e3", none, 300⟩
    (by decide) (by decide) (by decide) (by decide)

end EventstoreSpec

